import Mathlib

set_option autoImplicit false

/-!
Verification of the `aio` cooperative async runtime core.

The definitions below are shallow embeddings of the Python sources:
  * `Aio.PureFut`  — `src/aio/future/pure.py` (`Future`, `FuturePromise`)
  * `Aio.PureTask` — `src/aio/future/pure.py` (`Task`) together with a
    single-task, single-inner-future loop world
  * `Aio.Legacy`   — `src/aio/future.py` (`Future`, `Task`, `shield`) and
    `src/aio/task_group.py` (`TaskGroup.cancel`, `TaskGroup._join`)

Python mutation is rendered as explicit state passing: each method becomes a
function returning the (optionally raised) exception together with the new
state.  A raised exception leaves behind exactly the mutations the Python
method performed before the `raise`.  Loop scheduling (`loop.call_soon`)
becomes appending to an explicit FIFO queue of calls; a `Handle` is the
numeric index the loop assigned to the queued call, and `Handle.cancel`
removes the entry from the queue if it is still there (the loop
implementation itself is not part of the verified core; only this driver
contract is used).
-/

namespace Aio

/-- Opaque universe of Python values stored in futures. -/
abbrev Val := Nat

/-- Exception values of the runtime.  `cancelled` carries an allocation
identifier so that object identity of `Cancelled` instances is observable:
two `Cancelled` objects coming from distinct allocations carry distinct
identifiers. -/
inductive Exc where
  | cancelled (id : Nat) (msg : Option String)
  | futureNotReady (msg : Option String)
  | futureFinishedError (msg : Option String)
  | runtimeError (msg : String)
  | selfCancelForbidden
  | typeError (msg : String)
  | valueError (msg : String)
  | assertionError (msg : String)
  | attributeError (msg : String)
  | keyError (msg : String)
  | taskInnerError (msg : String)
  | userError (id : Nat)
  | multiError (msg : String) (inner : List Exc)
  deriving Repr

/-- `isinstance(exc, Cancelled)` — subclasses of `Cancelled` are identified
by their allocation id, so a single constructor covers them. -/
def Exc.isCancelled : Exc → Bool
  | .cancelled _ _ => true
  | _ => false

/-- Recognizer for `FutureFinishedError` regardless of its message. -/
def Exc.isFutureFinishedError : Exc → Bool
  | .futureFinishedError _ => true
  | _ => false

/-- Argument accepted by `cancel`: `str | Cancelled | None`. -/
inductive CancelArg where
  | noArg
  | msg (s : String)
  | exc (c : Exc)
  deriving Repr

/-- Modelled from the spec: `aio.future.utils.coerce_cancel_arg` is not under
`src/`; spec §4.2 says `cancel` coerces its argument: none → fresh
`Cancelled`; string → `Cancelled(string)`; `Cancelled` instance → used
as-is.  `fresh` is the allocation identifier a newly constructed `Cancelled`
would receive; an instance argument is returned unchanged, without a fresh
allocation. -/
def coerce_cancel_arg (fresh : Nat) : CancelArg → Exc
  | .noArg => .cancelled fresh none
  | .msg s => .cancelled fresh (some s)
  | .exc c => c

/-- The event loop driver contract consumed by the core: a FIFO of ready
calls.  Each queued call is paired with the numeric handle `call_soon`
returned for it. -/
structure Loop (α : Type) where
  queue : List (Nat × α)
  nextHandle : Nat
  deriving Repr

/-- `loop.call_soon(...)`: enqueue at the back, return the new handle. -/
def Loop.callSoon {α : Type} (l : Loop α) (c : α) : Loop α × Nat :=
  ({ queue := l.queue ++ [(l.nextHandle, c)], nextHandle := l.nextHandle + 1 }, l.nextHandle)

/-- `Handle.cancel()`: drop the queued call if it has not run yet. -/
def Loop.cancelHandle {α : Type} (l : Loop α) (h : Nat) : Loop α :=
  { l with queue := l.queue.filter (fun x => x.1 != h) }

namespace PureFut

/-!  Embedding of `Future` from `src/aio/future/pure.py`.

`_PendingState` holds `result_callbacks : dict[int, cb]` keyed by the
callback itself (so keys are unique and insertion-ordered): modelled as a
duplicate-free insertion-ordered list of callback identifiers.
`_SuccessState` / `_FailedState` hold `scheduled_cbs : dict[int, Handle]`,
modelled as an association list callback-id → handle. -/

inductive FState where
  | pending (resultCallbacks : List Nat)
  | success (result : Val) (scheduledCbs : List (Nat × Nat))
  | failed (exc : Exc) (excRetrieved : Bool) (scheduledCbs : List (Nat × Nat))
  deriving Repr

/-- `dict.get`-style lookup in a `scheduled_cbs` association list. -/
def assocFind (m : List (Nat × Nat)) (k : Nat) : Option Nat :=
  match m with
  | [] => none
  | (k', v) :: rest => if k' = k then some v else assocFind rest k

/-- `dict.pop(k)`-style removal (keys are unique, so a filter removes
exactly the one entry). -/
def assocErase (m : List (Nat × Nat)) (k : Nat) : List (Nat × Nat) :=
  m.filter (fun x => x.1 != k)

/-- `Future.is_finished` — true on `_SuccessState` / `_FailedState`. -/
def FState.is_finished : FState → Bool
  | .pending _ => false
  | .success _ _ => true
  | .failed _ _ _ => true

/-- `Future.is_cancelled` — failed with a `Cancelled` exception. -/
def FState.is_cancelled : FState → Bool
  | .failed e _ _ => e.isCancelled
  | _ => false

/-- `Future.add_callback(cb)`.  The Python body either inserts into the
pending dict or raises `FutureFinishedError`; it never touches the loop
(no `call_soon`), which is why the loop threads through unchanged in both
branches. -/
def FState.add_callback {α : Type} (s : FState) (cb : Nat) (l : Loop α) :
    Option Exc × FState × Loop α :=
  match s with
  | .pending cbs =>
      (none, .pending (if cbs.contains cb then cbs else cbs ++ [cb]), l)
  | .success _ _ | .failed _ _ _ =>
      (some (.futureFinishedError
        (some "Could not schedule callback for already finished future")), s, l)

/-- `Future.remove_callback(cb)`: on a pending future delete the dict entry
if present; on a finished future pop the scheduled handle and cancel it. -/
def FState.remove_callback {α : Type} (s : FState) (cb : Nat) (l : Loop α) :
    FState × Loop α :=
  match s with
  | .pending cbs => (.pending (cbs.filter (fun x => x != cb)), l)
  | .success v sch =>
      match assocFind sch cb with
      | none => (.success v sch, l)
      | some h => (.success v (assocErase sch cb), l.cancelHandle h)
  | .failed e r sch =>
      match assocFind sch cb with
      | none => (.failed e r sch, l)
      | some h => (.failed e r (assocErase sch cb), l.cancelHandle h)

/-- `Future._schedule_callbacks`: submit every registered callback via
`loop.call_soon` (the call the loop will make is `mk cb`) and collect the
returned handles. -/
def scheduleCallbacks {α : Type} (cbs : List Nat) (mk : Nat → α) (l : Loop α) :
    List (Nat × Nat) × Loop α :=
  match cbs with
  | [] => ([], l)
  | cb :: rest =>
      let (l', h) := l.callSoon (mk cb)
      let (sch, l'') := scheduleCallbacks rest mk l'
      ((cb, h) :: sch, l'')

/-- `Future._set_result(val, exc)`: reject two results, reject completion of
a finished future, otherwise schedule the callbacks and swap in the terminal
state. -/
def FState.set_result {α : Type} (s : FState) (val : Option Val) (exc : Option Exc)
    (mk : Nat → α) (l : Loop α) : Option Exc × FState × Loop α :=
  if val.isSome && exc.isSome then
    (some (.valueError
      "Both result value and exception given, but they are mutually exclusive"), s, l)
  else
    match s with
    | .pending cbs =>
        let (sch, l') := scheduleCallbacks cbs mk l
        match val, exc with
        | some v, _ => (none, .success v sch, l')
        | none, some e => (none, .failed e false sch, l')
        | none, none => (some (.assertionError "unreachable"), .pending cbs, l')
    | .success v sch => (some (.futureFinishedError none), .success v sch, l)
    | .failed e r sch => (some (.futureFinishedError none), .failed e r sch, l)

/-- `Future._cancel(exc)` = `_set_result(exc=coerce_cancel_arg(exc))`. -/
def FState.cancel {α : Type} (s : FState) (arg : CancelArg) (fresh : Nat)
    (mk : Nat → α) (l : Loop α) : Option Exc × FState × Loop α :=
  s.set_result none (some (coerce_cancel_arg fresh arg)) mk l

/-- `Future.result()`: `FutureNotReady` while pending, the value on success,
re-raise the stored exception (marking it retrieved) on failure. -/
def FState.result (s : FState) : Except Exc Val × FState :=
  match s with
  | .pending cbs => (.error (.futureNotReady none), .pending cbs)
  | .success v sch => (.ok v, .success v sch)
  | .failed e _ sch => (.error e, .failed e true sch)

/-- `Future.exception()`: `FutureNotReady` while pending, `None` on success,
the stored exception (marked retrieved) on failure. -/
def FState.exception (s : FState) : Except Exc (Option Exc) × FState :=
  match s with
  | .pending cbs => (.error (.futureNotReady none), .pending cbs)
  | .success v sch => (.ok none, .success v sch)
  | .failed e _ sch => (.ok (some e), .failed e true sch)

/-- First half of `Future.__await__`: the generator yields the future itself
exactly when the state is pending. -/
def FState.await_yields (s : FState) : Bool :=
  !s.is_finished

/-- Second half of `Future.__await__`, after the yield (or directly when no
yield happened): a still-pending future is a programming error, otherwise
`return self.result()`. -/
def FState.await_resume (s : FState) : Except Exc Val × FState :=
  match s with
  | .pending cbs =>
      (.error (.runtimeError
        "Future being resumed after first yield, but still not finished!"), .pending cbs)
  | _ => s.result

/-- `FuturePromise.set_result(val)`. -/
def promise_set_result {α : Type} (s : FState) (v : Val) (mk : Nat → α) (l : Loop α) :
    Option Exc × FState × Loop α :=
  s.set_result (some v) none mk l

/-- `FuturePromise.set_exception(exc)`: refuses a `Cancelled` instance with
`TypeError`, otherwise completes the future with the exception. -/
def promise_set_exception {α : Type} (s : FState) (e : Exc) (mk : Nat → α) (l : Loop α) :
    Option Exc × FState × Loop α :=
  if e.isCancelled then
    (some (.typeError "Use cancellation API instead of passing exception manually"), s, l)
  else
    s.set_result none (some e) mk l

end PureFut

namespace PureTask

/-!  Embedding of `Task` from `src/aio/future/pure.py`, instantiated to a
world with one task and one inner future (the future the task is, or will
be, waiting on).  The task coroutine is abstracted by two behaviours:
`firstOutcome`, what `coroutine.send(None)` does on the very first
resumption, and `k`, the continuation at the `await` on the inner future —
given the outcome of the await expression (its value, or the exception the
await re-raised or that was thrown in), `k` tells what the coroutine does
next.  The resumption of the suspended `await` itself is the embedded
`Future.__await__` logic (`FState.await_resume`): this is where a stored
exception of the inner future re-surfaces inside the coroutine. -/

/-- Ready-queue entries of the loop in this world: the task step callback
(`Task._execute_coroutine_step`, possibly carrying an inner-cancel
payload), or an opaque user callback registered on the inner future or on
the task itself.  Opaque callbacks observe and do not mutate the world. -/
inductive TCall where
  | taskStep (innerCancel : Option Exc)
  | innerCb (cb : Nat)
  | taskCb (cb : Nat)
  deriving Repr

/-- Callback identifier under which the task subscribes its step to the
inner future (`future.add_callback(self._execute_coroutine_step)`). -/
def stepCbId : Nat := 0

/-- How the loop interprets a callback registered on the inner future:
calling the task step method, or an opaque user callback. -/
def innerMk (cb : Nat) : TCall :=
  if cb = stepCbId then .taskStep none else .innerCb cb

/-- How the loop interprets a callback registered on the task itself. -/
def taskMk (cb : Nat) : TCall := .taskCb cb

/-- The `_TaskState` sum of `pure.py`: `_CreatedState`, `_ScheduledState`
(holding the first-step handle), `_RunningState` (waiting on the world's
inner future), and the inherited terminal future states. -/
inductive TaskSt where
  | created (resultCallbacks : List Nat)
  | scheduled (resultCallbacks : List Nat) (handle : Nat)
  | running (resultCallbacks : List Nat)
  | success (result : Val) (scheduledCbs : List (Nat × Nat))
  | failed (exc : Exc) (excRetrieved : Bool) (scheduledCbs : List (Nat × Nat))
  deriving Repr

/-- `isinstance(self._state, _BaseTaskState)` — a pre-terminal task state. -/
def TaskSt.isBase : TaskSt → Bool
  | .created _ | .scheduled _ _ | .running _ => true
  | _ => false

/-- `Future.is_finished` restricted to the task. -/
def TaskSt.is_finished : TaskSt → Bool
  | .success _ _ | .failed _ _ _ => true
  | _ => false

/-- `Future.exception()` on the task (`Task` inherits it: the pre-terminal
task states are `_PendingState` subclasses, hence `FutureNotReady`). -/
def TaskSt.exception : TaskSt → Except Exc (Option Exc) × TaskSt
  | .success v sch => (.ok none, .success v sch)
  | .failed e _ sch => (.ok (some e), .failed e true sch)
  | t => (.error (.futureNotReady none), t)

/-- Behaviour of one coroutine resumption: it suspends again on the inner
future, yields something that is not a future (`_TaskInnerError`), returns
(`StopIteration`), or lets an exception propagate. -/
inductive CoroOutcome where
  | yieldsInner
  | yieldsNonFuture
  | stopIteration (v : Val)
  | raises (e : Exc)

/-- Fresh-id bookkeeping for `coerce_cancel_arg`: a `Cancelled` instance is
used as-is, any other argument allocates one fresh `Cancelled`. -/
def freshAfter (arg : CancelArg) (f : Nat) : Nat :=
  match arg with
  | .exc _ => f
  | _ => f + 1

/-- The single-task world: the task, the inner future, the loop, the
abstracted coroutine behaviour and the allocator for fresh `Cancelled`
identifiers. -/
structure World where
  task : TaskSt
  inner : PureFut.FState
  loop : Loop TCall
  firstOutcome : CoroOutcome
  k : Except Exc Val → CoroOutcome
  fresh : Nat

/-- `Task._set_result` — refuses to finish the task while its coroutine is
mid-frame, then `Future._set_result` on the task itself: schedule the
task's result callbacks and swap in the terminal state. -/
def World.taskSetResult (w : World) (coroRunning : Bool) (val : Option Val)
    (exc : Option Exc) : Option Exc × World :=
  if w.task.isBase && coroRunning then
    (some (.runtimeError "Attempt to finish task before it coroutine finished"), w)
  else if val.isSome && exc.isSome then
    (some (.valueError
      "Both result value and exception given, but they are mutually exclusive"), w)
  else
    match w.task with
    | .created cbs | .scheduled cbs _ | .running cbs =>
        let (sch, l') := PureFut.scheduleCallbacks cbs taskMk w.loop
        match val, exc with
        | some v, _ => (none, { w with task := .success v sch, loop := l' })
        | none, some e => (none, { w with task := .failed e false sch, loop := l' })
        | none, none => (some (.assertionError "unreachable"), { w with loop := l' })
    | .success _ _ | .failed _ _ _ => (some (.futureFinishedError none), w)

/-- `Task._cancel` — `FutureFinishedError` on a terminal task; on a
scheduled task revoke the first-step handle and complete as cancelled; on a
running task whose awaited future is still pending, recursively cancel the
awaited future (`cancel_future(waiting_on, exc)` → `waiting_on._cancel`);
on a running task whose awaited future already finished, unsubscribe from
it and enqueue the step with the inner-cancel payload; on a created task
complete as cancelled directly. -/
def World.taskCancelPriv (w : World) (coroRunning : Bool) (arg : CancelArg) :
    Option Exc × World :=
  match w.task with
  | .success _ _ | .failed _ _ _ => (some (.futureFinishedError none), w)
  | .scheduled _ h =>
      ({ w with loop := (w.loop.cancelHandle h), fresh := freshAfter arg w.fresh
        }).taskSetResult coroRunning none (some (coerce_cancel_arg w.fresh arg))
  | .running _ =>
      if !w.inner.is_finished then
        let (err, inner', l') :=
          w.inner.set_result none (some (coerce_cancel_arg w.fresh arg)) innerMk w.loop
        (err, { w with inner := inner', loop := l', fresh := freshAfter arg w.fresh })
      else
        let (inner', l1) := w.inner.remove_callback stepCbId w.loop
        let (l2, _h) := l1.callSoon (TCall.taskStep (some (coerce_cancel_arg w.fresh arg)))
        (none, { w with inner := inner', loop := l2, fresh := freshAfter arg w.fresh })
  | .created _ =>
      ({ w with fresh := freshAfter arg w.fresh }).taskSetResult coroRunning none
        (some (coerce_cancel_arg w.fresh arg))

/-- `Task.cancel` — the public entry: detects self-cancel (the task state is
pre-terminal and the coroutine is currently mid-resumption) and raises
`SelfCancelForbidden` before anything is mutated; otherwise `_cancel`. -/
def World.taskCancel (w : World) (coroRunning : Bool) (arg : CancelArg) :
    Option Exc × World :=
  if w.task.isBase && coroRunning then
    (some .selfCancelForbidden, w)
  else
    w.taskCancelPriv coroRunning arg

/-- `Task._schedule_first_step` — only a created task may be scheduled. -/
def World.scheduleFirstStep (w : World) : Option Exc × World :=
  match w.task with
  | .created cbs =>
      let (l', h) := w.loop.callSoon (TCall.taskStep none)
      (none, { w with task := .scheduled cbs h, loop := l' })
  | _ => (some (.runtimeError "Only newly created tasks can be scheduled for first step"), w)

/-- Shared tail of `Task._execute_coroutine_step` once the coroutine
resumption produced an outcome.  On `StopIteration` / a propagating
exception the task is completed (the `finally` unsubscription is a no-op
because the state is terminal by then); on a yield of a non-future the
`finally` clause unsubscribes from the inner future while still running and
`_TaskInnerError` propagates; on a yield of the inner future the `finally`
clause unsubscribes the previous subscription, the step re-subscribes and
the task moves to the running state. -/
def World.stepTail (w : World) (cbs : List Nat) (wasRunning : Bool)
    (outcome : CoroOutcome) : Option Exc × World :=
  match outcome with
  | .stopIteration v => w.taskSetResult false (some v) none
  | .raises e => w.taskSetResult false none (some e)
  | .yieldsNonFuture =>
      let (inner', l') :=
        if wasRunning then w.inner.remove_callback stepCbId w.loop else (w.inner, w.loop)
      (some (.taskInnerError "All aio coroutines must yield a Feature instance"),
        { w with inner := inner', loop := l' })
  | .yieldsInner =>
      let (inner1, l1) :=
        if wasRunning then w.inner.remove_callback stepCbId w.loop else (w.inner, w.loop)
      let (err, inner2, l2) := inner1.add_callback stepCbId l1
      match err with
      | some e => (some e, { w with inner := inner2, loop := l2 })
      | none => (none, { w with inner := inner2, loop := l2, task := .running cbs })

/-- `Task._execute_coroutine_step(fut, inner_cancel)` — only a scheduled or
running task may be resumed; an inner-cancel with the awaited future still
pending is an internal error; otherwise the coroutine is resumed: from the
scheduled state by its first send, from the running state either by
throwing the inner-cancel exception into the `await`, or by a plain send,
which resumes the suspended `Future.__await__` of the inner future and
feeds its result (value or re-raised exception) to the continuation. -/
def World.taskStep (w : World) (innerCancel : Option Exc) : Option Exc × World :=
  match w.task with
  | .created _ | .success _ _ | .failed _ _ _ =>
      (some (.runtimeError "Trying to resume finished task"), w)
  | .scheduled cbs _ =>
      match innerCancel with
      | some _ => (some (.attributeError "waiting_on"), w)
      | none => w.stepTail cbs false w.firstOutcome
  | .running cbs =>
      match innerCancel with
      | some c =>
          if !w.inner.is_finished then
            (some (.runtimeError
              "Inner task cancel was requested, but awaited future is not finished!"), w)
          else
            w.stepTail cbs true (w.k (.error c))
      | none =>
          let (r, inner') := w.inner.await_resume
          ({ w with inner := inner' }).stepTail cbs true (w.k r)

/-- True for the opaque observer callbacks, false for the task step. -/
def TCall.isObs : TCall → Bool
  | .taskStep _ => false
  | .innerCb _ => true
  | .taskCb _ => true

/-- Execute one ready call popped from the queue.  Opaque user callbacks do
not mutate the world; an exception escaping a callback is absorbed by the
loop (the loop implementation is outside the verified core). -/
def World.exec (w : World) (c : TCall) : World :=
  match c with
  | .taskStep ic => (w.taskStep ic).2
  | .innerCb _ => w
  | .taskCb _ => w

/-- Drain the loop: run ready calls FIFO until the queue is empty (or the
fuel runs out; every theorem below supplies enough fuel to reach the empty
queue). -/
def World.drain : World → Nat → World
  | w, 0 => w
  | w, fuel + 1 =>
      match w.loop.queue with
      | [] => w
      | (_, c) :: rest =>
          (World.exec { w with loop := { w.loop with queue := rest } } c).drain fuel

/-- The queue segment `Future._schedule_callbacks` appends: the callbacks
in registration order, with the consecutive handles the loop hands out. -/
def attachHandles (cbs : List Nat) (h0 : Nat) (mk : Nat → TCall) : List (Nat × TCall) :=
  match cbs with
  | [] => []
  | cb :: rest => (h0, mk cb) :: attachHandles rest (h0 + 1) mk

end PureTask

namespace Legacy

/-!  Embedding of `Future`, `Task` and `shield` from `src/aio/future.py`
and of `TaskGroup.cancel` / `TaskGroup._join` from `src/aio/task_group.py`
(which imports from that module).  The legacy `Future` keeps its callback
set after completion and records no handles; completing it submits each
registered callback to the loop. -/

/-- `Future.State` of `src/aio/future.py` (an `IntEnum`); a plain future
starts in `running`, a task in `created`. -/
inductive LState where
  | created
  | scheduled
  | running
  | finishing
  | finished
  deriving Repr, DecidableEq

/-- The legacy `Future`: `_value`, `_exc` (with `_not_set` rendered as
`none`), the `_result_callbacks` set (modelled as a duplicate-free list)
and the state tag. -/
structure LFut where
  stateTag : LState
  value : Option Val
  exc : Option Exc
  callbacks : List Nat
  deriving Repr

/-- `Future.is_finished()` — a value or an exception has been stored. -/
def LFut.is_finished (f : LFut) : Bool :=
  f.value.isSome || f.exc.isSome

/-- `Future.is_cancelled()`. -/
def LFut.is_cancelled (f : LFut) : Bool :=
  f.is_finished && (f.exc.map Exc.isCancelled).getD false

/-- `Future._call_cbs` — submit every registered callback to the loop. -/
def lschedule {α : Type} (cbs : List Nat) (mk : Nat → α) (l : Loop α) : Loop α :=
  match cbs with
  | [] => l
  | cb :: rest => lschedule rest mk (l.callSoon (mk cb)).1

/-- `Future._set_result(val, exc)` — refuse on a finished future, then set
state, store value and exception, and schedule the callbacks. -/
def LFut.set_result {α : Type} (f : LFut) (val : Option Val) (exc : Option Exc)
    (mk : Nat → α) (l : Loop α) : Option Exc × LFut × Loop α :=
  if f.is_finished then
    (some (.futureFinishedError none), f, l)
  else
    (none, { f with stateTag := .finished, value := val, exc := exc },
      lschedule f.callbacks mk l)

/-- `Future.add_callback(cb)` — a duplicate registration is ignored; on an
already finished future the callback is scheduled on the loop right away
(the legacy policy); otherwise it is added to the set. -/
def LFut.add_callback {α : Type} (f : LFut) (cb : Nat) (mk : Nat → α) (l : Loop α) :
    LFut × Loop α :=
  if f.callbacks.contains cb then (f, l)
  else if f.is_finished then (f, (l.callSoon (mk cb)).1)
  else ({ f with callbacks := f.callbacks ++ [cb] }, l)

/-- `Future.remove_callback(cb)` — `set.remove` raises `KeyError` when the
callback is absent, and the `except ValueError` clause does not catch it. -/
def LFut.remove_callback (f : LFut) (cb : Nat) : Option Exc × LFut :=
  if f.callbacks.contains cb then
    (none, { f with callbacks := f.callbacks.filter (fun x => x != cb) })
  else
    (some (.keyError "cb"), f)

/-- Callback identifier of a legacy task's `_schedule_execution` bound
method, which the task subscribes to the future it awaits. -/
def lstepCbId : Nat := 0

/-- The legacy `Task`: the future fields plus the coroutine bookkeeping the
claims need — the `_waiting_on` back-edge and the `_started_promise`
future (`task-started-future`, created pending at construction). -/
structure LTask where
  stateTag : LState
  value : Option Val
  exc : Option Exc
  callbacks : List Nat
  waitingOn : Option LFut
  started : LFut
  deriving Repr

/-- `Task.__init__`: state `created`, nothing stored, pending started
promise. -/
def LTask.init : LTask :=
  ⟨.created, none, none, [], none, ⟨.running, none, none, []⟩⟩

/-- `Future.is_finished()` on the task. -/
def LTask.is_finished (t : LTask) : Bool :=
  t.value.isSome || t.exc.isSome

/-- `Task._set_result(val, exc)` — `Future._set_result` on the task itself,
then complete the started promise if it is not finished yet (so a caller
suspended on it is woken no matter how the task ended). -/
def LTask.set_result (t : LTask) (val : Option Val) (exc : Option Exc)
    (l : Loop Nat) : Option Exc × LTask × Loop Nat :=
  if t.is_finished then
    (some (.futureFinishedError none), t, l)
  else
    let l1 := lschedule t.callbacks (fun cb => cb) l
    let t1 := { t with stateTag := LState.finished, value := val, exc := exc }
    if t1.started.is_finished then
      (none, t1, l1)
    else
      match t1.started.set_result (some 0) none (fun cb => cb) l1 with
      | (_, s2, l2) => (none, { t1 with started := s2 }, l2)

/-- `Task._cancel(msg)` — refuse on a finished task; mark `finishing`; with
a live `_waiting_on` back-edge cancel that future instead (which raises
`FutureFinishedError` out of this call if that future is already finished);
without one, complete the task itself as cancelled (`Cancelled(msg)` is a
fresh allocation). -/
def LTask.cancelMethod (t : LTask) (msg : Option String) (fresh : Nat)
    (l : Loop Nat) : Option Exc × LTask × Loop Nat :=
  if t.is_finished then
    (some (.futureFinishedError none), t, l)
  else
    let t1 := { t with stateTag := LState.finishing }
    match t1.waitingOn with
    | some f =>
        match f.set_result none (some (.cancelled fresh msg)) (fun cb => cb) l with
        | (err, f', l') => (err, { t1 with waitingOn := some f' }, l')
    | none =>
        t1.set_result none (some (.cancelled fresh msg)) l

/-- `Task._schedule_execution` — enqueue the step callback; a created task
becomes scheduled. -/
def LTask.scheduleExecution (t : LTask) (l : Loop Nat) : LTask × Loop Nat :=
  let l1 := (l.callSoon lstepCbId).1
  (if t.stateTag = LState.created then { t with stateTag := LState.scheduled } else t, l1)

/-- The yield branch of `Task._execute_coroutine_step`: the coroutine
yielded the future `f`.  A scheduled task becomes running and its started
promise is completed; the previous `_waiting_on` subscription is removed;
the step is subscribed on `f` and the back-edge updated.  (The yielded
future here is a plain distinct future, so the self-await and cross-loop
`RuntimeError` branches do not fire.) -/
def LTask.stepYield (t : LTask) (f : LFut) (l : Loop Nat) :
    Option Exc × LTask × Loop Nat :=
  let wasScheduled := t.stateTag = LState.scheduled
  let t1 := if wasScheduled then { t with stateTag := LState.running } else t
  let startedDone :=
    if wasScheduled then t1.started.set_result (some 0) none (fun cb => cb) l
    else (none, t1.started, l)
  match startedDone with
  | (some e, s1, l1) => (some e, { t1 with started := s1 }, l1)
  | (none, s1, l1) =>
      let t2 := { t1 with started := s1 }
      match t2.waitingOn with
      | some fOld =>
          match fOld.remove_callback lstepCbId with
          | (some e, fOld') => (some e, { t2 with waitingOn := some fOld' }, l1)
          | (none, _) =>
              match f.add_callback lstepCbId (fun cb => cb) l1 with
              | (f1, l2) => (none, { t2 with waitingOn := some f1 }, l2)
      | none =>
          match f.add_callback lstepCbId (fun cb => cb) l1 with
          | (f1, l2) => (none, { t2 with waitingOn := some f1 }, l2)

/-- Task states reachable from construction through the legacy operations:
scheduling, the coroutine-step outcomes (`StopIteration` and a propagating
exception both land in `Task._set_result`; a yield lands in the yield
branch) and cancellation. -/
inductive LReach : LTask → Prop where
  | init : LReach LTask.init
  | schedule (t : LTask) (l : Loop Nat) : LReach t → LReach (t.scheduleExecution l).1
  | setRes (t : LTask) (val : Option Val) (exc : Option Exc) (l : Loop Nat) :
      LReach t → LReach (t.set_result val exc l).2.1
  | cancelStep (t : LTask) (msg : Option String) (fresh : Nat) (l : Loop Nat) :
      LReach t → LReach (t.cancelMethod msg fresh l).2.1
  | yieldStep (t : LTask) (f : LFut) (l : Loop Nat) :
      LReach t → LReach (t.stepYield f l).2.1

/-- `TaskGroup.cancel(msg)` — `for task in self._tasks: task._cancel(msg)`;
an exception raised by a child's `_cancel` propagates out of the loop,
leaving that child and all later children untouched. -/
def taskGroupCancel : List LTask → Option String → Nat → Loop Nat →
    Option Exc × List LTask × Loop Nat
  | [], _, _, l => (none, [], l)
  | t :: rest, msg, fresh, l =>
      match t.cancelMethod msg fresh l with
      | (some e, t', l') => (some e, t' :: rest, l')
      | (none, t', l') =>
          match taskGroupCancel rest msg (fresh + 1) l' with
          | (err, rest', l'') => (err, t' :: rest', l'')

end Legacy

namespace Shield

/-!  Embedding of `shield` from `src/aio/future.py`: a fresh promise whose
future mirrors the given one through the `future_done_cb` callback. -/

/-- Callback identifier of the `future_done_cb` closure `shield` registers
on the mirrored future. -/
def doneCbId : Nat := 1

/-- Loop calls in the shield world: the mirror callback, or opaque user
callbacks on either future. -/
inductive SCall where
  | doneCb
  | futCb (cb : Nat)
  | shldCb (cb : Nat)
  deriving Repr

/-- Interpretation of callbacks registered on the mirrored future. -/
def futMk (cb : Nat) : SCall :=
  if cb = doneCbId then .doneCb else .futCb cb

/-- Interpretation of callbacks registered on the shielded future. -/
def shldMk (cb : Nat) : SCall := .shldCb cb

/-- The shield world: the mirrored future, the shielded future returned to
the caller, and the loop. -/
structure ShieldW where
  fut : Legacy.LFut
  shld : Legacy.LFut
  loop : Loop SCall
  deriving Repr

/-- `shield(future)` — create the fresh shield promise and subscribe
`future_done_cb` on the mirrored future. -/
def shieldInit (fut : Legacy.LFut) (l : Loop SCall) : ShieldW :=
  match fut.add_callback doneCbId futMk l with
  | (fut1, l1) => ⟨fut1, ⟨.running, none, none, []⟩, l1⟩

/-- `future_done_cb(_)` — when the mirrored future failed, copy the
exception through `shield_promise.set_exception`, which refuses a
`Cancelled` instance with `ValueError`; when it succeeded, copy the value
through `shield_promise.set_result`. -/
def ShieldW.runDoneCb (w : ShieldW) : Option Exc × ShieldW :=
  match w.fut.exc with
  | some e =>
      if e.isCancelled then
        (some (.valueError "Use cancellation API instead of passing exception manually"), w)
      else
        match w.shld.set_result none (some e) shldMk w.loop with
        | (err, shld', l') => (err, { w with shld := shld', loop := l' })
  | none =>
      match w.fut.value with
      | some v =>
          match w.shld.set_result (some v) none shldMk w.loop with
          | (err, shld', l') => (err, { w with shld := shld', loop := l' })
      | none => (some (.assertionError "mirrored future must be finished"), w)

/-- Complete the mirrored future with a value through its own promise. -/
def ShieldW.completeFutValue (w : ShieldW) (v : Val) : Option Exc × ShieldW :=
  match w.fut.set_result (some v) none futMk w.loop with
  | (err, fut', l') => (err, { w with fut := fut', loop := l' })

/-- Complete the mirrored future with a non-`Cancelled` exception through
its own promise (`set_exception`). -/
def ShieldW.completeFutExc (w : ShieldW) (e : Exc) : Option Exc × ShieldW :=
  if e.isCancelled then
    (some (.valueError "Use cancellation API instead of passing exception manually"), w)
  else
    match w.fut.set_result none (some e) futMk w.loop with
    | (err, fut', l') => (err, { w with fut := fut', loop := l' })

/-- Cancel the mirrored future through its own promise
(`Future._cancel(msg)` stores a fresh `Cancelled`). -/
def ShieldW.completeFutCancel (w : ShieldW) (msg : Option String) (fresh : Nat) :
    Option Exc × ShieldW :=
  match w.fut.set_result none (some (.cancelled fresh msg)) futMk w.loop with
  | (err, fut', l') => (err, { w with fut := fut', loop := l' })

/-- Cancel the shielded future through its own handle: only the shielded
future is touched. -/
def ShieldW.cancelShld (w : ShieldW) (msg : Option String) (fresh : Nat) :
    Option Exc × ShieldW :=
  match w.shld.set_result none (some (.cancelled fresh msg)) shldMk w.loop with
  | (err, shld', l') => (err, { w with shld := shld', loop := l' })

/-- Run one ready call; exceptions escaping a callback are absorbed by the
loop, and opaque user callbacks do not mutate the world. -/
def ShieldW.exec (w : ShieldW) (c : SCall) : ShieldW :=
  match c with
  | .doneCb => (w.runDoneCb).2
  | .futCb _ => w
  | .shldCb _ => w

/-- Drain the shield world's loop FIFO. -/
def ShieldW.drain : ShieldW → Nat → ShieldW
  | w, 0 => w
  | w, fuel + 1 =>
      match w.loop.queue with
      | [] => w
      | (_, c) :: rest =>
          (ShieldW.exec { w with loop := { w.loop with queue := rest } } c).drain fuel

end Shield

/-!  Embedding of the exception aggregation of `TaskGroup._join`
(`src/aio/task_group.py`): after all children finished, the exceptions of
the children are collected (`[task.exception for task in tasks if
task.exception]` — every stored exception object is truthy) and raised as
one `MultiError` when the list is non-empty. -/

/-- One flattening layer of `MultiError` contents. -/
def flattenExc : Exc → List Exc
  | .multiError _ inner => inner
  | e => [e]

/-- Modelled from the spec: `create_multi_error` lives in `aio.exceptions`,
which is not under `src/`; spec §7 says `MultiError` is an aggregate with
an ordered list of inner exceptions that flattens nested `MultiError`s and
spec §4.5 names the aggregation result a `MultiError`.  Modelled as one
flattening layer over the given exceptions, preserving order. -/
def create_multi_error (msg : String) (excs : List Exc) : Exc :=
  .multiError msg (excs.flatMap flattenExc)

/-- `[task.exception for task in tasks if task.exception]` over the final
exceptions of the children. -/
def join_task_exceptions (excs : List (Option Exc)) : List Exc :=
  excs.filterMap id

/-- The raise decision at the end of `TaskGroup._join`: raise the aggregate
when any child stored an exception, raise nothing otherwise. -/
def joinRaise (excs : List (Option Exc)) : Option Exc :=
  match join_task_exceptions excs with
  | [] => none
  | es => some (create_multi_error "Child task errors" es)

/-- The aggregation the claim describes, following the spec words: only
exceptions of children that ended in a non-`Cancelled` exception, or in a
`Cancelled` that did not originate from the group (`fromGroup` identifies
the `Cancelled` exceptions the group itself injected). -/
def joinRaiseClaimed (excs : List (Option Exc)) (fromGroup : Exc → Bool) : Option Exc :=
  match (excs.filterMap id).filter (fun e => !e.isCancelled || !fromGroup e) with
  | [] => none
  | es => some (create_multi_error "Child task errors" es)

/-- The cancellation message `task_group` uses when the body raised
(`src/aio/task_group.py`). -/
def groupCancelBodyMsg : String :=
  "Cancelling task group due to exception raised inside task group body"

/-! Helper lemmas about the pure `Future` operations. -/

theorem assocFind_assocErase (sch : List (Nat × Nat)) (cb : Nat) :
    PureFut.assocFind (PureFut.assocErase sch cb) cb = none := by
  induction sch with
  | nil => rfl
  | cons x rest ih =>
      obtain ⟨k, v⟩ := x
      by_cases hk : k = cb
      · simp [PureFut.assocErase, hk] at ih ⊢
        simpa [PureFut.assocErase] using ih
      · simp [PureFut.assocErase, hk] at ih ⊢
        simpa [PureFut.assocFind, hk, PureFut.assocErase] using ih

/-- Claim C3: on a terminal `Future` (success or failed), `add_callback`
raises `FutureFinishedError`, the callback bookkeeping is unchanged, and
nothing is submitted to the loop. -/
theorem add_callback_on_finished_rejects {α : Type} (s : PureFut.FState) (cb : Nat)
    (l : Loop α) (h : s.is_finished = true) :
    s.add_callback cb l =
      (some (.futureFinishedError
        (some "Could not schedule callback for already finished future")), s, l) := by
  cases s with
  | pending cbs => simp [PureFut.FState.is_finished] at h
  | success v sch => rfl
  | failed e r sch => rfl

/-- Witness for C3 at a concrete terminal future. -/
theorem add_callback_on_finished_rejects_witness :
    (PureFut.FState.success 5 []).is_finished = true ∧
    (PureFut.FState.success 5 []).add_callback 0 (⟨[], 0⟩ : Loop Nat) =
      (some (.futureFinishedError
        (some "Could not schedule callback for already finished future")),
        PureFut.FState.success 5 [], (⟨[], 0⟩ : Loop Nat)) :=
  ⟨rfl, add_callback_on_finished_rejects (PureFut.FState.success 5 []) 0 ⟨[], 0⟩ rfl⟩

/-- Claim C4: the `Future` state machine is monotone.  From `pending` the
only transitions are to `success` (via `set_result`) or `failed` (via
`set_exception` or `cancel`); on a terminal future every completion attempt
raises `FutureFinishedError` and leaves the stored value or exception, the
whole state and the loop unchanged — in particular a terminal future never
returns to pending and never switches between the terminal variants. -/
theorem future_state_monotone {α : Type} (s : PureFut.FState) (mk : Nat → α)
    (l : Loop α) (v : Val) (e : Exc) (arg : CancelArg) (fresh : Nat) :
    (s.is_finished = false →
        (∃ sch l', PureFut.promise_set_result s v mk l = (none, .success v sch, l'))
      ∧ (e.isCancelled = false →
          ∃ sch l', PureFut.promise_set_exception s e mk l = (none, .failed e false sch, l'))
      ∧ (∃ sch l', s.cancel arg fresh mk l =
          (none, .failed (coerce_cancel_arg fresh arg) false sch, l')))
  ∧ (s.is_finished = true →
        PureFut.promise_set_result s v mk l = (some (.futureFinishedError none), s, l)
      ∧ (e.isCancelled = false →
          PureFut.promise_set_exception s e mk l = (some (.futureFinishedError none), s, l))
      ∧ s.cancel arg fresh mk l = (some (.futureFinishedError none), s, l)) := by
  constructor
  · intro hpend
    cases s with
    | pending cbs =>
        refine ⟨⟨_, _, rfl⟩, fun he => ?_, ⟨_, _, rfl⟩⟩
        refine ⟨(PureFut.scheduleCallbacks cbs mk l).1, (PureFut.scheduleCallbacks cbs mk l).2, ?_⟩
        simp [PureFut.promise_set_exception, he, PureFut.FState.set_result]
    | success w sch => simp [PureFut.FState.is_finished] at hpend
    | failed e' r sch => simp [PureFut.FState.is_finished] at hpend
  · intro hfin
    cases s with
    | pending cbs => simp [PureFut.FState.is_finished] at hfin
    | success w sch =>
        refine ⟨rfl, fun he => ?_, rfl⟩
        simp [PureFut.promise_set_exception, he, PureFut.FState.set_result]
    | failed e' r sch =>
        refine ⟨rfl, fun he => ?_, rfl⟩
        simp [PureFut.promise_set_exception, he, PureFut.FState.set_result]

/-- Witness for C4 on a concrete pending and a concrete finished future. -/
theorem future_state_monotone_witness :
    ((PureFut.FState.pending []).is_finished = false
      ∧ (∃ sch l', PureFut.promise_set_result (PureFut.FState.pending []) 7 id
          (⟨[], 0⟩ : Loop Nat) = (none, .success 7 sch, l')))
  ∧ ((PureFut.FState.success 7 []).is_finished = true
      ∧ PureFut.promise_set_result (PureFut.FState.success 7 []) 8 id (⟨[], 0⟩ : Loop Nat)
          = (some (.futureFinishedError none), PureFut.FState.success 7 [], ⟨[], 0⟩)) :=
  ⟨⟨rfl, ((future_state_monotone (PureFut.FState.pending []) id ⟨[], 0⟩ 7
      (.userError 0) .noArg 0).1 rfl).1⟩,
    ⟨rfl, ((future_state_monotone (PureFut.FState.success 7 []) id ⟨[], 0⟩ 8
      (.userError 0) .noArg 0).2 rfl).1⟩⟩

/-- Claim C7: `__await__` yields the pending future itself exactly once
(never when already finished); a resumption while still pending surfaces a
`RuntimeError`; a resumption with the future terminal returns the stored
value or re-raises the stored exception. -/
theorem await_behavior (s : PureFut.FState) :
    (s.is_finished = false → s.await_yields = true
      ∧ ∃ msg, (s.await_resume).1 = .error (.runtimeError msg))
  ∧ (∀ v sch, s = .success v sch → s.await_yields = false ∧ s.await_resume = (.ok v, s))
  ∧ (∀ e r sch, s = .failed e r sch → s.await_yields = false
      ∧ s.await_resume = (.error e, .failed e true sch)) := by
  refine ⟨?_, ?_, ?_⟩
  · intro hpend
    cases s with
    | pending cbs => exact ⟨rfl, "Future being resumed after first yield, but still not finished!", rfl⟩
    | success v sch => simp [PureFut.FState.is_finished] at hpend
    | failed e r sch => simp [PureFut.FState.is_finished] at hpend
  · intro v sch h
    subst h
    exact ⟨rfl, rfl⟩
  · intro e r sch h
    subst h
    exact ⟨rfl, rfl⟩

/-- Witness for C7 at a concrete pending future and a concrete failed one. -/
theorem await_behavior_witness :
    ((PureFut.FState.pending [3]).await_yields = true
      ∧ ∃ msg, ((PureFut.FState.pending [3]).await_resume).1 = .error (.runtimeError msg))
  ∧ ((PureFut.FState.failed (.userError 2) false []).await_resume
      = (.error (.userError 2), PureFut.FState.failed (.userError 2) true [])) :=
  ⟨(await_behavior (PureFut.FState.pending [3])).1 rfl,
    (((await_behavior (PureFut.FState.failed (.userError 2) false [])).2.2
      (.userError 2) false [] rfl)).2⟩

/-- Claim C9: `remove_callback` is idempotent — removing a callback that is
not registered (in particular a second removal of the same callback) is a
no-op that leaves the future state, its callback bookkeeping and the loop
unchanged — and on a terminal future removing a still-scheduled callback
pops its entry and cancels the already-enqueued loop handle. -/
theorem remove_callback_idempotent {α : Type} (s : PureFut.FState) (cb : Nat) (l : Loop α) :
    (((s.remove_callback cb l).1).remove_callback cb (s.remove_callback cb l).2
      = s.remove_callback cb l)
  ∧ (∀ cbs, s = .pending cbs → cb ∉ cbs → s.remove_callback cb l = (s, l))
  ∧ (∀ v sch, s = .success v sch → PureFut.assocFind sch cb = none →
      s.remove_callback cb l = (s, l))
  ∧ (∀ e r sch, s = .failed e r sch → PureFut.assocFind sch cb = none →
      s.remove_callback cb l = (s, l))
  ∧ (∀ v sch h, s = .success v sch → PureFut.assocFind sch cb = some h →
      s.remove_callback cb l = (.success v (PureFut.assocErase sch cb), l.cancelHandle h))
  ∧ (∀ e r sch h, s = .failed e r sch → PureFut.assocFind sch cb = some h →
      s.remove_callback cb l = (.failed e r (PureFut.assocErase sch cb), l.cancelHandle h)) := by
  refine ⟨?_, ?_, ?_, ?_, ?_, ?_⟩
  · cases s with
    | pending cbs =>
        simp [PureFut.FState.remove_callback, List.filter_filter]
    | success v sch =>
        rcases hf : PureFut.assocFind sch cb with _ | h
        · simp [PureFut.FState.remove_callback, hf]
        · simp [PureFut.FState.remove_callback, hf, assocFind_assocErase]
    | failed e r sch =>
        rcases hf : PureFut.assocFind sch cb with _ | h
        · simp [PureFut.FState.remove_callback, hf]
        · simp [PureFut.FState.remove_callback, hf, assocFind_assocErase]
  · rintro cbs rfl hno
    have : cbs.filter (fun x => x != cb) = cbs := by
      refine List.filter_eq_self.2 fun a ha => ?_
      have hne : a ≠ cb := fun hac => hno (hac ▸ ha)
      simpa using hne
    simp [PureFut.FState.remove_callback, this]
  · rintro v sch rfl hf
    simp [PureFut.FState.remove_callback, hf]
  · rintro e r sch rfl hf
    simp [PureFut.FState.remove_callback, hf]
  · rintro v sch h rfl hf
    simp [PureFut.FState.remove_callback, hf]
  · rintro e r sch h rfl hf
    simp [PureFut.FState.remove_callback, hf]

namespace PureTask

theorem exec_obs (w : World) (c : TCall) (h : c.isObs = true) : w.exec c = w := by
  cases c with
  | taskStep ic => simp [TCall.isObs] at h
  | innerCb cb => rfl
  | taskCb cb => rfl

theorem drain_queue_nil (w : World) (fuel : Nat) (hq : w.loop.queue = []) :
    w.drain fuel = w := by
  cases fuel with
  | zero => rfl
  | succ n =>
      obtain ⟨t, i, ⟨q, nh⟩, fo, kk, fr⟩ := w
      simp only at hq
      subst hq
      rfl

theorem drain_cons (w : World) (h : Nat) (c : TCall) (rest : List (Nat × TCall))
    (fuel : Nat) (hq : w.loop.queue = (h, c) :: rest) :
    w.drain (fuel + 1) =
      (World.exec { w with loop := { w.loop with queue := rest } } c).drain fuel := by
  obtain ⟨t, i, ⟨q, nh⟩, fo, kk, fr⟩ := w
  simp only at hq
  subst hq
  rfl

theorem drain_skip (A : List (Nat × TCall)) :
    ∀ (w : World) (rest : List (Nat × TCall)) (fuel : Nat),
      (∀ x ∈ A, x.2.isObs = true) → w.loop.queue = A ++ rest →
      w.drain (A.length + fuel) =
        World.drain { w with loop := { w.loop with queue := rest } } fuel := by
  induction A with
  | nil =>
      intro w rest fuel _ hq
      have hw : ({ w with loop := { w.loop with queue := rest } } : World) = w := by
        obtain ⟨t, i, ⟨q, nh⟩, fo, kk, fr⟩ := w
        simp only [List.nil_append] at hq
        subst hq
        rfl
      rw [hw]
      simp
  | cons a A ih =>
      intro w rest fuel hobs hq
      obtain ⟨h, c⟩ := a
      have h1 : ((h, c) :: A).length + fuel = (A.length + fuel) + 1 := by
        simp [List.length_cons]
        omega
      rw [h1, drain_cons w h c (A ++ rest) (A.length + fuel) (by simpa using hq)]
      rw [exec_obs _ c (hobs (h, c) (by simp))]
      exact ih _ rest fuel (fun x hx => hobs x (List.mem_cons_of_mem _ hx)) rfl

theorem scheduleCallbacks_loop (cbs : List Nat) :
    ∀ (mk : Nat → TCall) (l : Loop TCall),
      (PureFut.scheduleCallbacks cbs mk l).2 =
        ⟨l.queue ++ attachHandles cbs l.nextHandle mk, l.nextHandle + cbs.length⟩ := by
  induction cbs with
  | nil =>
      intro mk l
      simp [PureFut.scheduleCallbacks, attachHandles]
  | cons cb rest ih =>
      intro mk l
      simp only [PureFut.scheduleCallbacks, Loop.callSoon, attachHandles, ih]
      have harith : l.nextHandle + 1 + rest.length = l.nextHandle + (rest.length + 1) := by omega
      simp [harith, List.length_cons]

theorem attachHandles_append (a b : List Nat) :
    ∀ (h0 : Nat) (mk : Nat → TCall),
      attachHandles (a ++ b) h0 mk =
        attachHandles a h0 mk ++ attachHandles b (h0 + a.length) mk := by
  induction a with
  | nil =>
      intro h0 mk
      simp [attachHandles]
  | cons x xs ih =>
      intro h0 mk
      have harith : h0 + 1 + xs.length = h0 + (xs.length + 1) := by omega
      simp [attachHandles, ih, harith, List.length_cons]

theorem attachHandles_length (cbs : List Nat) :
    ∀ (h0 : Nat) (mk : Nat → TCall), (attachHandles cbs h0 mk).length = cbs.length := by
  induction cbs with
  | nil => intro h0 mk; rfl
  | cons cb rest ih => intro h0 mk; simp [attachHandles, ih]

theorem attachHandles_obs (cbs : List Nat) :
    ∀ (h0 : Nat), (∀ cb ∈ cbs, cb ≠ stepCbId) →
      ∀ x ∈ attachHandles cbs h0 innerMk, x.2.isObs = true := by
  induction cbs with
  | nil => intro h0 _ x hx; simp [attachHandles] at hx
  | cons cb rest ih =>
      intro h0 hno x hx
      simp only [attachHandles, List.mem_cons] at hx
      rcases hx with hx | hx
      · subst hx
        simp [innerMk, hno cb (List.mem_cons_self cb rest), TCall.isObs]
      · exact ih (h0 + 1) (fun c hc => hno c (List.mem_cons_of_mem _ hc)) x hx

theorem attachHandles_obs_taskMk (cbs : List Nat) :
    ∀ (h0 : Nat), ∀ x ∈ attachHandles cbs h0 taskMk, x.2.isObs = true := by
  induction cbs with
  | nil => intro h0 x hx; simp [attachHandles] at hx
  | cons cb rest ih =>
      intro h0 x hx
      simp only [attachHandles, List.mem_cons] at hx
      rcases hx with hx | hx
      · subst hx; rfl
      · exact ih (h0 + 1) x hx

theorem drain_skip_lit (A : List (Nat × TCall)) (t : TaskSt) (i : PureFut.FState)
    (nh : Nat) (fo : CoroOutcome) (kk : Except Exc Val → CoroOutcome) (fr : Nat)
    (rest : List (Nat × TCall)) (fuel : Nat) (hobs : ∀ x ∈ A, x.2.isObs = true) :
    World.drain ⟨t, i, ⟨A ++ rest, nh⟩, fo, kk, fr⟩ (A.length + fuel)
      = World.drain ⟨t, i, ⟨rest, nh⟩, fo, kk, fr⟩ fuel :=
  drain_skip A ⟨t, i, ⟨A ++ rest, nh⟩, fo, kk, fr⟩ rest fuel hobs rfl

theorem drain_cons_lit (t : TaskSt) (i : PureFut.FState) (nh : Nat) (fo : CoroOutcome)
    (kk : Except Exc Val → CoroOutcome) (fr : Nat) (h : Nat) (c : TCall)
    (rest : List (Nat × TCall)) (fuel : Nat) :
    World.drain ⟨t, i, ⟨(h, c) :: rest, nh⟩, fo, kk, fr⟩ (fuel + 1)
      = (World.exec ⟨t, i, ⟨rest, nh⟩, fo, kk, fr⟩ c).drain fuel := rfl

theorem drain_obs_all_lit (A : List (Nat × TCall)) (t : TaskSt) (i : PureFut.FState)
    (nh : Nat) (fo : CoroOutcome) (kk : Except Exc Val → CoroOutcome) (fr : Nat)
    (hobs : ∀ x ∈ A, x.2.isObs = true) :
    World.drain ⟨t, i, ⟨A, nh⟩, fo, kk, fr⟩ A.length = ⟨t, i, ⟨[], nh⟩, fo, kk, fr⟩ := by
  have h := drain_skip_lit A t i nh fo kk fr [] 0 hobs
  simpa using h

/-- Claim C8: calling `cancel` on a task whose coroutine is currently
mid-resumption (the coroutine state is `CORO_RUNNING`, hence the task state
is still pre-terminal) fails with `SelfCancelForbidden` and leaves the
whole world — in particular the task state — unchanged. -/
theorem task_self_cancel_forbidden (w : World) (arg : CancelArg)
    (hbase : w.task.isBase = true) :
    w.taskCancel true arg = (some .selfCancelForbidden, w) := by
  simp [World.taskCancel, hbase]

/-- Claim C1: for a task in the running state whose awaited future is still
pending, cancelling the task with a `Cancelled` instance `C` recursively
cancels the awaited future — the cancel call itself raises nothing, and the
inner future is immediately `is_cancelled` holding exactly the object `C` —
and after the loop drains (the inner future's completion callback resumes
the coroutine, whose `await` re-raises `C`, which the coroutine — assumed
not to catch exceptions at this await, hypothesis `hk` — propagates), the
task is failed with `C` and `task.exception()` returns the very object `C`:
the stored exception carries the identifier `cid` of `C` even though the
allocator counter `fr` differs from it and is never consumed, so no fresh
`Cancelled` equal to `C` could have been produced — identity, not mere
equality. -/
theorem task_cancel_running_pending_inner
    (tcbs icbs : List Nat) (Q0 : List (Nat × TCall)) (nh fr : Nat)
    (firstO : CoroOutcome) (k : Except Exc Val → CoroOutcome)
    (cid : Nat) (cmsg : Option String)
    (hk : ∀ e, k (.error e) = .raises e)
    (hstep : stepCbId ∈ icbs)
    (hnodup : icbs.Nodup)
    (hq : ∀ x ∈ Q0, x.2.isObs = true)
    (hid : cid ≠ fr) :
    (World.taskCancel ⟨.running tcbs, .pending icbs, ⟨Q0, nh⟩, firstO, k, fr⟩ false
        (.exc (.cancelled cid cmsg))).1 = none
  ∧ ((World.taskCancel ⟨.running tcbs, .pending icbs, ⟨Q0, nh⟩, firstO, k, fr⟩ false
        (.exc (.cancelled cid cmsg))).2).inner.is_cancelled = true
  ∧ ∃ schI schT,
      World.drain
          ((World.taskCancel ⟨.running tcbs, .pending icbs, ⟨Q0, nh⟩, firstO, k, fr⟩ false
            (.exc (.cancelled cid cmsg))).2)
          (Q0.length + icbs.length + tcbs.length)
        = ⟨.failed (.cancelled cid cmsg) false schT, .failed (.cancelled cid cmsg) true schI,
            ⟨[], nh + icbs.length + tcbs.length⟩, firstO, k, fr⟩
      ∧ ((TaskSt.failed (.cancelled cid cmsg) false schT).exception).1
          = .ok (some (.cancelled cid cmsg)) := by
  obtain ⟨i1, i2, hsplit⟩ := List.append_of_mem hstep
  have hnd : (i1 ++ stepCbId :: i2).Nodup := hsplit ▸ hnodup
  have hni1 : ∀ cb ∈ i1, cb ≠ stepCbId := by
    intro cb hcb heq
    subst heq
    rcases List.nodup_append.1 hnd with ⟨_, _, hdisj⟩
    exact hdisj hcb (List.mem_cons_self _ _)
  have hni2 : ∀ cb ∈ i2, cb ≠ stepCbId := by
    intro cb hcb heq
    subst heq
    rcases List.nodup_append.1 hnd with ⟨_, hnd2, _⟩
    exact (List.nodup_cons.1 hnd2).1 hcb
  refine ⟨rfl, rfl, (PureFut.scheduleCallbacks icbs innerMk ⟨Q0, nh⟩).1,
    (PureFut.scheduleCallbacks tcbs taskMk
      ⟨attachHandles i2 (nh + i1.length + 1) innerMk, nh + icbs.length⟩).1, ?_, rfl⟩
  show World.drain
      ⟨.running tcbs,
        .failed (.cancelled cid cmsg) false (PureFut.scheduleCallbacks icbs innerMk ⟨Q0, nh⟩).1,
        (PureFut.scheduleCallbacks icbs innerMk ⟨Q0, nh⟩).2, firstO, k, fr⟩
      (Q0.length + icbs.length + tcbs.length) = _
  rw [scheduleCallbacks_loop icbs innerMk ⟨Q0, nh⟩]
  rw [show Q0.length + icbs.length + tcbs.length
      = Q0.length + (icbs.length + tcbs.length) from by omega]
  rw [drain_skip_lit Q0 _ _ _ _ _ _ _ _ hq]
  rw [show attachHandles icbs nh innerMk
      = attachHandles i1 nh innerMk
        ++ ((nh + i1.length, TCall.taskStep none)
            :: attachHandles i2 (nh + i1.length + 1) innerMk) from by
    rw [hsplit, attachHandles_append]
    simp [attachHandles, innerMk]]
  rw [show icbs.length + tcbs.length
      = (attachHandles i1 nh innerMk).length + ((i2.length + tcbs.length) + 1) from by
    rw [attachHandles_length i1 nh innerMk, hsplit]
    simp [List.length_append, List.length_cons]
    omega]
  rw [drain_skip_lit (attachHandles i1 nh innerMk) _ _ _ _ _ _ _ _
    (attachHandles_obs i1 nh hni1)]
  rw [drain_cons_lit]
  rw [show World.exec
      ⟨.running tcbs,
        .failed (.cancelled cid cmsg) false (PureFut.scheduleCallbacks icbs innerMk ⟨Q0, nh⟩).1,
        ⟨attachHandles i2 (nh + i1.length + 1) innerMk, nh + icbs.length⟩, firstO, k, fr⟩
      (TCall.taskStep none)
    = (World.stepTail
        ⟨.running tcbs,
          .failed (.cancelled cid cmsg) true (PureFut.scheduleCallbacks icbs innerMk ⟨Q0, nh⟩).1,
          ⟨attachHandles i2 (nh + i1.length + 1) innerMk, nh + icbs.length⟩, firstO, k, fr⟩
        tcbs true (k (.error (.cancelled cid cmsg)))).2 from rfl]
  rw [hk (.cancelled cid cmsg)]
  rw [show (World.stepTail
        ⟨.running tcbs,
          .failed (.cancelled cid cmsg) true (PureFut.scheduleCallbacks icbs innerMk ⟨Q0, nh⟩).1,
          ⟨attachHandles i2 (nh + i1.length + 1) innerMk, nh + icbs.length⟩, firstO, k, fr⟩
        tcbs true (CoroOutcome.raises (.cancelled cid cmsg))).2
    = ⟨.failed (.cancelled cid cmsg) false
          (PureFut.scheduleCallbacks tcbs taskMk
            ⟨attachHandles i2 (nh + i1.length + 1) innerMk, nh + icbs.length⟩).1,
        .failed (.cancelled cid cmsg) true (PureFut.scheduleCallbacks icbs innerMk ⟨Q0, nh⟩).1,
        (PureFut.scheduleCallbacks tcbs taskMk
          ⟨attachHandles i2 (nh + i1.length + 1) innerMk, nh + icbs.length⟩).2,
        firstO, k, fr⟩ from rfl]
  rw [scheduleCallbacks_loop tcbs taskMk
    ⟨attachHandles i2 (nh + i1.length + 1) innerMk, nh + icbs.length⟩]
  rw [show i2.length + tcbs.length
      = (attachHandles i2 (nh + i1.length + 1) innerMk
          ++ attachHandles tcbs (nh + icbs.length) taskMk).length from by
    simp [List.length_append, attachHandles_length]]
  rw [drain_obs_all_lit
    (attachHandles i2 (nh + i1.length + 1) innerMk
      ++ attachHandles tcbs (nh + icbs.length) taskMk) _ _ _ _ _ _ ?_]
  · intro x hx
    rcases List.mem_append.1 hx with hx | hx
    · exact attachHandles_obs i2 (nh + i1.length + 1) hni2 x hx
    · exact attachHandles_obs_taskMk tcbs (nh + icbs.length) x hx

/-- Witness for C1: a concrete world — the task has one external callback,
the inner future carries the step subscription and one external callback,
the coroutine propagates whatever the await raises — cancelled with a
concrete `Cancelled` object. -/
theorem task_cancel_running_pending_inner_witness :
    (World.taskCancel ⟨.running [7], .pending [stepCbId, 5], ⟨[], 11⟩, .yieldsInner,
        (fun r => match r with | .ok v => .stopIteration v | .error e => .raises e), 42⟩ false
      (.exc (.cancelled 3 (some "stop")))).1 = none
  ∧ ∃ schI schT,
      World.drain
          ((World.taskCancel ⟨.running [7], .pending [stepCbId, 5], ⟨[], 11⟩, .yieldsInner,
            (fun r => match r with | .ok v => .stopIteration v | .error e => .raises e), 42⟩ false
            (.exc (.cancelled 3 (some "stop")))).2)
          (([] : List (Nat × TCall)).length + [stepCbId, 5].length + [7].length)
        = ⟨.failed (.cancelled 3 (some "stop")) false schT,
            .failed (.cancelled 3 (some "stop")) true schI,
            ⟨[], 11 + [stepCbId, 5].length + [7].length⟩, .yieldsInner,
            (fun r => match r with | .ok v => .stopIteration v | .error e => .raises e), 42⟩ := by
  have h := task_cancel_running_pending_inner [7] [stepCbId, 5] [] 11 42 .yieldsInner
    (fun r => match r with | .ok v => .stopIteration v | .error e => .raises e) 3 (some "stop")
    (fun e => rfl) (by simp) (by simp [stepCbId]) (by simp) (by simp)
  exact ⟨h.1, h.2.2.imp fun schI hI => hI.imp fun schT hT => hT.1⟩

/-- Witness for C8 at a concrete running task. -/
theorem task_self_cancel_forbidden_witness :
    World.taskCancel ⟨.running [], .pending [stepCbId], ⟨[], 0⟩, .yieldsInner,
        fun _ => .yieldsInner, 0⟩ true .noArg
      = (some .selfCancelForbidden,
        ⟨.running [], .pending [stepCbId], ⟨[], 0⟩, .yieldsInner, fun _ => .yieldsInner, 0⟩) :=
  task_self_cancel_forbidden _ .noArg rfl

end PureTask

namespace Legacy

theorem stepYield_spec (t : LTask) (f : LFut) (l : Loop Nat) :
    ((t.stepYield f l).2.1).value = t.value
  ∧ ((t.stepYield f l).2.1).exc = t.exc
  ∧ (((t.stepYield f l).2.1).started = t.started
      ∨ (((t.stepYield f l).2.1).started).is_finished = true) := by
  rcases hwo : t.waitingOn with _ | fOld
  · by_cases hw : t.stateTag = LState.scheduled <;>
      by_cases hs : t.started.value.isSome = true ∨ t.started.exc.isSome = true <;>
      by_cases hcont : lstepCbId ∈ f.callbacks <;>
      by_cases hff : f.value.isSome = true ∨ f.exc.isSome = true <;>
      simp [LTask.stepYield, LFut.set_result, LFut.add_callback, LFut.remove_callback,
        LFut.is_finished, hwo, hw, hs, hcont, hff]
  · by_cases hw : t.stateTag = LState.scheduled <;>
      by_cases hs : t.started.value.isSome = true ∨ t.started.exc.isSome = true <;>
      by_cases hrem : lstepCbId ∈ fOld.callbacks <;>
      by_cases hcont : lstepCbId ∈ f.callbacks <;>
      by_cases hff : f.value.isSome = true ∨ f.exc.isSome = true <;>
      simp [LTask.stepYield, LFut.set_result, LFut.add_callback, LFut.remove_callback,
        LFut.is_finished, hwo, hw, hs, hrem, hcont, hff]

/-- Claim C10: whenever a legacy task reaches a terminal state by any
reachable path — its coroutine returned or raised (both land in
`Task._set_result`), or it was cancelled — the internal started promise is
finished as well, so a caller suspended on it (as in
`TaskGroup.wait_started`) is always woken, even when the child finishes or
is cancelled before its first suspension. -/
theorem task_finished_implies_started (t : LTask) (h : LReach t)
    (hfin : t.is_finished = true) : (t.started).is_finished = true := by
  induction h with
  | init => simp [LTask.init, LTask.is_finished] at hfin
  | schedule t l _ ih =>
      by_cases hc : t.stateTag = LState.created <;>
      · simp [LTask.scheduleExecution, hc, LTask.is_finished, LFut.is_finished] at hfin ⊢
        simpa [LFut.is_finished] using ih (by simpa [LTask.is_finished] using hfin)
  | setRes t val exc l _ ih =>
      by_cases hf : t.value.isSome = true ∨ t.exc.isSome = true
      · have hf' : t.is_finished = true := by simpa [LTask.is_finished] using hf
        simp [LTask.set_result, LTask.is_finished, LFut.is_finished, hf] at hfin ⊢
        simpa [LFut.is_finished] using ih hf'
      · by_cases hs : (t.started).value.isSome = true ∨ (t.started).exc.isSome = true
        · simp [LTask.set_result, LTask.is_finished, LFut.is_finished, hf, hs]
        · simp [LTask.set_result, LTask.is_finished, LFut.is_finished, LFut.set_result,
            hf, hs]
  | cancelStep t msg fresh l _ ih =>
      by_cases hf : t.value.isSome = true ∨ t.exc.isSome = true
      · have hf' : t.is_finished = true := by simpa [LTask.is_finished] using hf
        simp [LTask.cancelMethod, LTask.is_finished, LFut.is_finished, hf] at hfin ⊢
        simpa [LFut.is_finished] using ih hf'
      · rcases hwo : t.waitingOn with _ | fOld
        · by_cases hs : (t.started).value.isSome = true ∨ (t.started).exc.isSome = true
          · simp [LTask.cancelMethod, LTask.set_result, LTask.is_finished,
              LFut.is_finished, hf, hwo, hs]
          · simp [LTask.cancelMethod, LTask.set_result, LTask.is_finished,
              LFut.is_finished, LFut.set_result, hf, hwo, hs]
        · by_cases hff : fOld.value.isSome = true ∨ fOld.exc.isSome = true <;>
            simp [LTask.cancelMethod, LTask.is_finished, LFut.is_finished,
              LFut.set_result, hf, hwo, hff] at hfin
  | yieldStep t f l _ ih =>
      obtain ⟨hv, he, hst⟩ := stepYield_spec t f l
      have hfin' : t.is_finished = true := by
        simpa [LTask.is_finished, hv, he] using hfin
      rcases hst with hst | hst
      · rw [hst]
        exact ih hfin'
      · exact hst

/-- Witness for C10: a concrete trace — create, schedule, coroutine
returns 5 — leaves the task finished with the started promise finished. -/
theorem task_finished_implies_started_witness :
    ((((LTask.init.scheduleExecution ⟨[], 0⟩).1).set_result (some 5) none ⟨[], 0⟩).2.1).is_finished
        = true
  ∧ (((((LTask.init.scheduleExecution ⟨[], 0⟩).1).set_result (some 5) none
        ⟨[], 0⟩).2.1).started).is_finished = true :=
  ⟨rfl, task_finished_implies_started _
    (LReach.setRes _ (some 5) none _ (LReach.schedule _ _ LReach.init)) rfl⟩

/-- Claim C5 (the code bug): `TaskGroup.cancel` on a group whose first
child already finished raises `FutureFinishedError` out of the loop —
the finished child is left untouched, the live child is never cancelled
and the operation does not return normally. -/
theorem taskgroup_cancel_crashes_on_finished_child :
    taskGroupCancel
        [⟨.finished, some 1, none, [], none, ⟨.finished, some 0, none, []⟩⟩,
          ⟨.scheduled, none, none, [], none, ⟨.running, none, none, []⟩⟩]
        (some "stop") 0 ⟨[], 0⟩
      = (some (.futureFinishedError none),
          [⟨.finished, some 1, none, [], none, ⟨.finished, some 0, none, []⟩⟩,
            ⟨.scheduled, none, none, [], none, ⟨.running, none, none, []⟩⟩], ⟨[], 0⟩)
  ∧ (⟨.scheduled, none, none, [], none,
      ⟨.running, none, none, []⟩⟩ : LTask).is_finished = false :=
  ⟨rfl, rfl⟩

end Legacy

/-- Claim C6 counterexample: when the mirrored future completes with a
`Cancelled` exception, the mirror callback raises `ValueError` (the
promise's `set_exception` refuses `Cancelled`), so after the loop drains
the shielded future is still pending — it does not complete with the same
exception as the claim states. -/
theorem shield_cancelled_not_mirrored :
    (((Shield.shieldInit ⟨.running, none, none, []⟩ ⟨[], 0⟩).completeFutCancel
        (some "why") 7).2.runDoneCb).1
      = some (.valueError "Use cancellation API instead of passing exception manually")
  ∧ (Shield.ShieldW.drain
        ((Shield.shieldInit ⟨.running, none, none, []⟩ ⟨[], 0⟩).completeFutCancel
          (some "why") 7).2 2).fut.is_cancelled = true
  ∧ (Shield.ShieldW.drain
        ((Shield.shieldInit ⟨.running, none, none, []⟩ ⟨[], 0⟩).completeFutCancel
          (some "why") 7).2 2).shld.is_finished = false :=
  ⟨rfl, rfl, rfl⟩

/-- Claim C6 amended: `shield(fut)` returns a distinct future that mirrors
`fut`: a value is mirrored as the same value and a non-`Cancelled`
exception as the same exception once the loop drains; when `fut` completes
with `Cancelled` the mirror callback fails and the shielded future is never
completed (see the counterexample); cancelling the shielded future through
its own handle leaves `fut` untouched. -/
theorem shield_mirrors (v : Val) (e : Exc) (he : e.isCancelled = false)
    (msg : Option String) (fresh : Nat) (w : Shield.ShieldW) :
    (Shield.ShieldW.drain
        ((Shield.shieldInit ⟨.running, none, none, []⟩ ⟨[], 0⟩).completeFutValue v).2
        2).shld.value = some v
  ∧ (Shield.ShieldW.drain
        ((Shield.shieldInit ⟨.running, none, none, []⟩ ⟨[], 0⟩).completeFutValue v).2
        2).shld.is_finished = true
  ∧ (Shield.ShieldW.drain
        ((Shield.shieldInit ⟨.running, none, none, []⟩ ⟨[], 0⟩).completeFutExc e).2
        2).shld.exc = some e
  ∧ ((w.cancelShld msg fresh).2).fut = w.fut := by
  refine ⟨rfl, rfl, ?_, rfl⟩
  simp [Shield.shieldInit, Shield.ShieldW.completeFutExc, Shield.ShieldW.drain,
    Shield.ShieldW.exec, Shield.ShieldW.runDoneCb, Shield.futMk, Shield.shldMk,
    Legacy.LFut.add_callback, Legacy.LFut.set_result, Legacy.LFut.is_finished,
    Legacy.lschedule, Loop.callSoon, he, Shield.doneCbId]

/-- Witness for C6's amended theorem at a concrete value, exception and
world. -/
theorem shield_mirrors_witness :
    (Shield.ShieldW.drain
        ((Shield.shieldInit ⟨.running, none, none, []⟩ ⟨[], 0⟩).completeFutValue 3).2
        2).shld.value = some 3
  ∧ (Shield.ShieldW.drain
        ((Shield.shieldInit ⟨.running, none, none, []⟩ ⟨[], 0⟩).completeFutExc (.userError 4)).2
        2).shld.exc = some (.userError 4) := by
  have h := shield_mirrors 3 (.userError 4) rfl none 0
    ⟨⟨.running, none, none, []⟩, ⟨.running, none, none, []⟩, ⟨[], 0⟩⟩
  exact ⟨h.1, h.2.2.1⟩

/-- Claim C2 counterexample: a group with a single child that ended in a
`Cancelled` originating from the group (the group's own body-exception
cancel message) — the claim says nothing is raised, but `_join` collects
every stored exception and raises a `MultiError` holding that `Cancelled`. -/
theorem join_aggregates_group_cancelled :
    joinRaise [some (.cancelled 0 (some groupCancelBodyMsg))]
      = some (.multiError "Child task errors" [.cancelled 0 (some groupCancelBodyMsg)])
  ∧ joinRaiseClaimed [some (.cancelled 0 (some groupCancelBodyMsg))] (fun _ => true) = none :=
  ⟨rfl, rfl⟩

/-- Claim C2 amended: with all children complete, `_join` raises nothing
exactly when no child stored any exception; otherwise it raises one
`MultiError` aggregating the exceptions of every child that stored one —
including `Cancelled` exceptions, also those the group itself injected —
flattened one `MultiError` layer, and no child exception is lost from the
aggregate. -/
theorem join_aggregates_all (excs : List (Option Exc)) :
    (joinRaise excs = none ↔ join_task_exceptions excs = [])
  ∧ (join_task_exceptions excs ≠ [] →
      joinRaise excs = some (.multiError "Child task errors"
        ((join_task_exceptions excs).flatMap flattenExc)))
  ∧ ∀ e ∈ join_task_exceptions excs, ∀ x ∈ flattenExc e,
      x ∈ (join_task_exceptions excs).flatMap flattenExc := by
  refine ⟨?_, ?_, ?_⟩
  · cases h : join_task_exceptions excs with
    | nil => simp [joinRaise, h]
    | cons a as => simp [joinRaise, h]
  · intro hne
    cases h : join_task_exceptions excs with
    | nil => exact absurd h hne
    | cons a as => simp [joinRaise, h, create_multi_error]
  · intro e he x hx
    exact List.mem_flatMap.2 ⟨e, he, hx⟩

/-- Witness for C2's amended theorem: one erroring child yields a
`MultiError` with exactly its exception; no erroring child yields no
raise. -/
theorem join_aggregates_all_witness :
    joinRaise [none, some (.userError 1)]
      = some (.multiError "Child task errors" [.userError 1])
  ∧ joinRaise [none] = none := by
  have h1 := join_aggregates_all [none, some (.userError 1)]
  have h2 := join_aggregates_all [none]
  refine ⟨?_, h2.1.2 (by simp [join_task_exceptions])⟩
  have := h1.2.1 (by simp [join_task_exceptions])
  simpa [join_task_exceptions, flattenExc] using this

/-- Witness for C9: a second removal on a concrete pending future is a
no-op, and removal on a concrete finished future cancels the loop handle. -/
theorem remove_callback_idempotent_witness :
    (((PureFut.FState.pending [4]).remove_callback 4 (⟨[(9, 0)], 10⟩ : Loop Nat)).1.remove_callback 4
        ((PureFut.FState.pending [4]).remove_callback 4 (⟨[(9, 0)], 10⟩ : Loop Nat)).2
      = (PureFut.FState.pending [4]).remove_callback 4 (⟨[(9, 0)], 10⟩ : Loop Nat))
  ∧ (PureFut.FState.success 1 [(4, 9)]).remove_callback 4 (⟨[(9, 0)], 10⟩ : Loop Nat)
      = (.success 1 [], (⟨[(9, 0)], 10⟩ : Loop Nat).cancelHandle 9) :=
  ⟨(remove_callback_idempotent (PureFut.FState.pending [4]) 4 ⟨[(9, 0)], 10⟩).1,
    by
      have := (remove_callback_idempotent (PureFut.FState.success 1 [(4, 9)]) 4
        (⟨[(9, 0)], 10⟩ : Loop Nat)).2.2.2.2.1 1 [(4, 9)] 9 rfl rfl
      simpa [PureFut.assocErase] using this⟩

end Aio
